import Mathlib

/-!
Verification of the kvmflows ingestion pipeline: a shallow embedding of the
bulk HTTP fetch engine (`src/kvmflows/clients/http_client.py`), the OFDB
search and entry-detail stages (`src/kvmflows/ofdb/search.py`,
`src/kvmflows/ofdb/entries.py`), the geo-grid planner and the three-tier
upsert of `src/kvmflows/flows/update_entires.py`, and the area orchestrator
of `src/kvmflows/flows/sync_all_entires.py`.

Network and database collaborators are modelled as explicit oracles; the
asyncio semaphore and task machinery is modelled as a labelled transition
system on gate counters; machine floats of the grid arithmetic are modelled
over `ℚ`.
-/

namespace Kvmflows

/-- A minimal JSON value, the payload type of successful fetches. -/
inductive Json where
  | obj (fields : List (String × Json))
  | arr (items : List Json)
  | str (s : String)
  | num (n : ℚ)
  | bool (b : Bool)
  | null

/-- `FetchOutcome` mirrors the `Union[Dict[str, Any], Exception]` return type of
`BulkHttpClient.get_with_retries`: a parsed value or an exception carried as
data (the exception is represented by its message). -/
inductive FetchOutcome (α : Type) where
  | value (v : α)
  | error (e : String)

/-- Trace of one `get_with_retries` call: the returned outcome, the number of
attempts actually performed, and the list of sleeps executed (in order). -/
structure RetryTrace where
  outcome : FetchOutcome Json
  attempts : Nat
  delays : List ℚ

/-- The retry loop of `BulkHttpClient.get_with_retries`
(`src/kvmflows/clients/http_client.py`, lines 33-67).  `net a` is the network
oracle for the attempt with 0-indexed number `a`: `.ok v` for a 2xx response
already parsed, `.error e` for a raised `HTTPStatusError` or transport
exception.  On success the value is returned at once; on failure with
`attempt + 1 == max_retries` the caught exception is returned as a value;
otherwise the loop sleeps `retry_delay * (attempt + 1)` and retries.  `fuel`
is the number of loop iterations still permitted (`maxRetries - attempt`);
when it reaches zero the loop has ended and the fabricated final `Exception`
of line 67 is returned. -/
def retryGo (net : Nat → Except String Json) (maxRetries : Nat) (retryDelay : ℚ)
    (attempt : Nat) : Nat → RetryTrace
  | 0 => ⟨.error ("Failed to fetch after " ++ toString maxRetries ++ " attempts"), 0, []⟩
  | fuel + 1 =>
    match net attempt with
    | .ok v => ⟨.value v, 1, []⟩
    | .error e =>
      if attempt + 1 = maxRetries then
        ⟨.error e, 1, []⟩
      else
        let rest := retryGo net maxRetries retryDelay (attempt + 1) fuel
        ⟨rest.outcome, rest.attempts + 1,
          retryDelay * ((attempt + 1 : Nat) : ℚ) :: rest.delays⟩

/-- `get_with_retries` as a whole: the loop `for attempt in range(self.max_retries)`
started at attempt 0 with `max_retries` iterations available.  The retry logic of
`src/kvmflows/scraper/http_client.py` (lines 31-52) is identical and is covered by
the same embedding. -/
def getWithRetries (net : Nat → Except String Json) (maxRetries : Nat)
    (retryDelay : ℚ) : RetryTrace :=
  retryGo net maxRetries retryDelay 0 maxRetries

/-- The sleeps executed by a run of the retry loop that performs `cnt + 1`
failing attempts starting at 0-indexed attempt `a` without returning:
`D*(a+1), D*(a+2), …, D*(a+cnt)`. -/
def linearDelays (D : ℚ) (a cnt : Nat) : List ℚ :=
  (List.range cnt).map (fun i => D * ((a + 1 + i : Nat) : ℚ))

/-- One grid cell of the search grid, in the order the `bbox` string is built:
`f"{lats[i]},{lngs[j]},{lats[i+1]},{lngs[j+1]}"`
(`src/kvmflows/flows/update_entires.py`, line 83). -/
structure BoundingBox where
  lat_min : ℚ
  lng_min : ℚ
  lat_max : ℚ
  lng_max : ℚ
deriving DecidableEq, Repr

/-- The `i`-th of `num` evenly spaced points from `a` to `b`:
`a + i * (b - a) / (num - 1)`.  This is `np.linspace(a, b, num)[i]`, with the
machine floats of numpy modelled by exact rationals. -/
def gridPoint (a b : ℚ) (num i : Nat) : ℚ :=
  a + (b - a) * (i : ℚ) / ((num - 1 : Nat) : ℚ)

/-- `np.linspace(a, b, num)` over `ℚ`: `num` evenly spaced points from `a` to
`b`, both endpoints included. -/
def linspace (a b : ℚ) (num : Nat) : List ℚ :=
  (List.range num).map (gridPoint a b num)

/-- The grid-planning loop of `process_area`
(`src/kvmflows/flows/update_entires.py` lines 77-84, identical in
`src/kvmflows/flows/sync_all_entires.py` lines 75-82): subdivide each axis
with `np.linspace`, then for `i in range(lat_n_chunks - 1)` and
`j in range(lng_n_chunks - 1)` emit the cell
`(lats[i], lngs[j], lats[i+1], lngs[j+1])`.  The source formats the four
numbers into a `bbox` query string; the cell is modelled as the quadruple. -/
def processAreaGrid (latLo latHi lngLo lngHi : ℚ) (latChunks lngChunks : Nat) :
    List BoundingBox :=
  let lats := linspace latLo latHi latChunks
  let lngs := linspace lngLo lngHi lngChunks
  (List.range (latChunks - 1)).flatMap (fun i =>
    (List.range (lngChunks - 1)).map (fun j =>
      ⟨lats.getD i 0, lngs.getD j 0, lats.getD (i + 1) 0, lngs.getD (j + 1) 0⟩))

/-- The result buffer of `asyncio.gather(*tasks, return_exceptions=True)`
while tasks are completing: one slot per task, in task-creation order, `none`
while the task is pending.  Tasks complete in an arbitrary order `π` (a
permutation of the task indices); each completion stores task `i`'s result in
slot `i`, so the returned list is in task order whatever `π` is. -/
def gatherRun {α : Type} (result : Nat → α) (numTasks : Nat) (π : List Nat) :
    List (Option α) :=
  π.foldl (fun buf i => buf.set i (some (result i))) (List.replicate numTasks none)

/-- `BulkHttpClient.bulk_get` (`src/kvmflows/clients/http_client.py` lines
75-83): one `get_with_semaphore` task per URL, gathered with
`return_exceptions=True`.  `fetch url` is the outcome `get_with_retries`
produces for `url` (its errors are already data, so `return_exceptions` has
nothing left to convert); `π` is the order in which the tasks complete. -/
def bulkGet (fetch : String → FetchOutcome Json) (urls : List String)
    (π : List Nat) : List (Option (FetchOutcome Json)) :=
  gatherRun (fun i => fetch (urls.getD i "")) urls.length π

/-- Modelled from the spec: the `SearchEntry` record of the missing source
file `src/kvmflows/models/search_entry.py` — "`RecordRef` is at minimum an
identifier and a display title". -/
structure SearchEntry where
  id : String
  title : String
deriving DecidableEq, Repr

/-- The `SearchResult` pydantic model of `src/kvmflows/ofdb/search.py`
(lines 11-13): `visible` and `invisible` lists of search entries, both
defaulting to `[]`. -/
structure SearchResult where
  visible : List SearchEntry
  invisible : List SearchEntry
deriving DecidableEq, Repr

/-- Modelled from the spec (missing `src/kvmflows/models/search_entry.py`):
pydantic validation of one search entry — a JSON object carrying the `id` and
`title` strings; anything else raises a `ValidationError`. -/
def SearchEntry.model_validate : Json → Except String SearchEntry
  | .obj fields =>
    match fields.lookup "id", fields.lookup "title" with
    | some (.str i), some (.str t) => .ok ⟨i, t⟩
    | _, _ => .error "ValidationError: SearchEntry"
  | _ => .error "ValidationError: SearchEntry input is not a dict"

/-- Pydantic validation of one optional list-of-entries field: a missing field
takes the default `[]`; a present field must be a JSON array whose members all
validate. -/
def validateEntryField (field : Option Json) : Except String (List SearchEntry) :=
  match field with
  | none => .ok []
  | some (.arr items) => items.mapM SearchEntry.model_validate
  | some _ => .error "ValidationError: field is not a list"

/-- `SearchResult.model_validate(response)` where `response` is what
`bulk_get_generator` yielded (`src/kvmflows/ofdb/search.py` line 45).  Pydantic
accepts only a dict here: an `Exception` instance (the error outcome of an
exhausted fetch) or any non-dict JSON raises a `ValidationError`; a dict is
validated field by field with extra keys ignored. -/
def SearchResult.model_validate : FetchOutcome Json → Except String SearchResult
  | .error e => .error ("ValidationError: input is an Exception: " ++ e)
  | .value (.obj fields) => do
    let vis ← validateEntryField (fields.lookup "visible")
    let invis ← validateEntryField (fields.lookup "invisible")
    pure ⟨vis, invis⟩
  | .value _ => .error "ValidationError: input is not a dict"

/-- The async-generator body of `search` (`src/kvmflows/ofdb/search.py` lines
44-45): `async for response in client.bulk_get_generator(urls): yield
SearchResult.model_validate(response)`.  The input is the outcome sequence in
completion order; each outcome is validated with no error check in between; a
raised `ValidationError` escapes and ends the generator.  Returns the results
yielded before any failure, and the error that escaped if one did. -/
def searchStream : List (FetchOutcome Json) → List SearchResult × Option String
  | [] => ([], none)
  | o :: rest =>
    match SearchResult.model_validate o with
    | .ok r =>
      let t := searchStream rest
      (r :: t.1, t.2)
    | .error e => ([], some e)

/-- The chunking of `get_entries` (`src/kvmflows/ofdb/entries.py` lines
19-20): `range(0, len(entry_ids), chunk_size)` drives `ceil(len/chunk_size)`
iterations, each slicing off the next `chunk_size` ids with `islice`. -/
def chunksOfGo {α : Type} (cs : Nat) : Nat → List α → List (List α)
  | 0, _ => []
  | fuel + 1, l => l.take cs :: chunksOfGo cs fuel (l.drop cs)

/-- Number of iterations of `range(0, len, cs)` for `cs ≥ 1`: `ceil(len/cs)`. -/
def numChunks (len cs : Nat) : Nat := (len + cs - 1) / cs

/-- `entry_ids` partitioned into consecutive chunks of at most `cs` ids. -/
def chunksOf {α : Type} (cs : Nat) (l : List α) : List (List α) :=
  chunksOfGo cs (numChunks l.length cs) l

/-- The request path for one chunk (`src/kvmflows/ofdb/entries.py` lines
21-24): `f"{config.ofdb.url}/entries/{','.join(ids)}"`. -/
def entryUrl (base : String) (ids : List String) : String :=
  base ++ "/entries/" ++ String.intercalate "," ids

/-- One URL per chunk, in chunk order. -/
def getEntriesUrls (base : String) (entryIds : List String) (chunkSize : Nat) :
    List String :=
  (chunksOf chunkSize entryIds).map (entryUrl base)

/-- The per-chunk body of `get_entries` (`src/kvmflows/ofdb/entries.py` lines
26-32): an outcome that is an `Exception` is logged and yields `[]`; otherwise
`[Entry.model_validate(entry) for entry in response]` — iterating a JSON array
visits its items, iterating a dict visits its keys, iterating a string visits
its one-character substrings, and any other value raises `TypeError`.
`decode` is pydantic's `Entry.model_validate` on one item, supplied as an
oracle.  An `.error` result is an exception escaping the generator. -/
def processChunkOutcome {α : Type} (decode : Json → Except String α) :
    FetchOutcome Json → Except String (List α)
  | .error _ => .ok []
  | .value (.arr items) => items.mapM decode
  | .value (.obj fields) => fields.mapM (fun f => decode (.str f.1))
  | .value (.str s) => s.data.mapM (fun c => decode (.str (String.mk [c])))
  | .value _ => .error "TypeError: response is not iterable"

/-- The yield loop of `get_entries`: each completed chunk outcome yields its
batch (an error outcome yields `[]` and continues); a decode failure escapes
and ends the generator. -/
def getEntriesYields {α : Type} (decode : Json → Except String α) :
    List (FetchOutcome Json) → List (List α) × Option String
  | [] => ([], none)
  | o :: rest =>
    match processChunkOutcome decode o with
    | .ok batch =>
      let t := getEntriesYields decode rest
      (batch :: t.1, t.2)
    | .error e => ([], some e)

/-- `get_entries` end to end: chunk the ids, form one URL per chunk, fetch all
URLs through `bulk_get_generator` (whose yields arrive in the completion order
`π`), and run the yield loop. -/
def getEntries {α : Type} (decode : Json → Except String α)
    (fetch : String → FetchOutcome Json) (base : String) (entryIds : List String)
    (chunkSize : Nat) (π : List Nat) : List (List α) × Option String :=
  let urls := getEntriesUrls base entryIds chunkSize
  getEntriesYields decode (π.map (fun i => fetch (urls.getD i "")))

/-- A domain record as it reaches the reconcile stage: identified by its
natural key `id`; its remaining (version, title, coordinates, …) fields are
never inspected by the tier logic and are collapsed into an opaque payload. -/
structure Record where
  id : String
  payload : String
deriving DecidableEq, Repr

/-- The database round-trips the three upsert tiers perform, recorded as a
trace.  `beginTxn`/`commitTxn`/`rollbackTxn` are entry and the two exits of a
`with db.atomic():` block; the remaining constructors are the statements the
tiers issue. -/
inductive DbOp where
  | beginTxn
  | commitTxn
  | rollbackTxn
  | bulkInsertOnConflict (ids : List String)
  | update (id : String)
  | insert (id : String)
  | getOrNone (id : String)
  | save (id : String)
  | sleep (seconds : ℚ)
deriving DecidableEq, Repr

/-- The store: the rows currently persisted, keyed by `Record.id`. -/
abbrev DbState := List Record

def dbHas (s : DbState) (id : String) : Bool := s.any (fun q => q.id == id)

/-- Write `r` into the store: overwrite the row with `r.id` when present,
append it otherwise. -/
def dbSet (s : DbState) (r : Record) : DbState :=
  if dbHas s r.id then s.map (fun q => if q.id == r.id then r else q) else s ++ [r]

/-- Oracles for the database collaborator.  `dbOk r` is whether persisting `r`
satisfies the store's constraints (a `false` makes the statement writing `r`
raise); `bulkMechFails` is a failure of the bulk conflict-resolution mechanism
itself; `connFails` is a connection-level failure at tier 2's `db.connect()` /
`db.atomic()` boundary, which is what escalates to tier 3. -/
structure DbEnv where
  dbOk : Record → Bool
  bulkMechFails : Bool
  connFails : Bool

/-- Tier 3, `safe_async_fallback_upserts`
(`src/kvmflows/flows/update_entires.py` lines 256-313): for each record,
`aio_get_or_none` then `aio_save` (updating the found row's fields or creating
a new row); a failure is caught for that record alone, counted, and followed
by a small `asyncio.sleep(0.01)`; no transaction is opened anywhere.  Returns
`(success_count, final store, trace)`. -/
def safe_async_fallback_upserts (env : DbEnv) : List Record → DbState →
    Nat × DbState × List DbOp
  | [], s => (0, s, [])
  | r :: rest, s =>
    if env.dbOk r then
      let t := safe_async_fallback_upserts env rest (dbSet s r)
      (t.1 + 1, t.2.1, .getOrNone r.id :: .save r.id :: t.2.2)
    else
      let t := safe_async_fallback_upserts env rest s
      (t.1, t.2.1, .getOrNone r.id :: .save r.id :: .sleep (1/100) :: t.2.2)

/-- The per-record loop inside tier 2's `with db.atomic():` block
(`src/kvmflows/flows/update_entires.py` lines 214-243): `UPDATE … WHERE id=?`;
on zero rows affected, `INSERT`; each record's exception is caught and the
loop continues with the next record. -/
def tier2Loop (env : DbEnv) : List Record → DbState → Nat × DbState × List DbOp
  | [], s => (0, s, [])
  | r :: rest, s =>
    if dbHas s r.id then
      if env.dbOk r then
        let t := tier2Loop env rest (dbSet s r)
        (t.1 + 1, t.2.1, .update r.id :: t.2.2)
      else
        let t := tier2Loop env rest s
        (t.1, t.2.1, .update r.id :: t.2.2)
    else
      if env.dbOk r then
        let t := tier2Loop env rest (dbSet s r)
        (t.1 + 1, t.2.1, .update r.id :: .insert r.id :: t.2.2)
      else
        let t := tier2Loop env rest s
        (t.1, t.2.1, .update r.id :: .insert r.id :: t.2.2)

/-- Tier 2, `fallback_individual_upserts`
(`src/kvmflows/flows/update_entires.py` lines 193-253): on a connection-level
failure at the `db.connect()` / `db.atomic()` boundary it escalates to tier 3;
otherwise it runs the per-record loop inside one `with db.atomic():` block —
the whole batch between a single `beginTxn`/`commitTxn` pair (the block exits
normally because every record-level exception is caught inside it) — and
returns `success_count`. -/
def fallback_individual_upserts (env : DbEnv) (recs : List Record) (s : DbState) :
    Nat × DbState × List DbOp :=
  if env.connFails then
    safe_async_fallback_upserts env recs s
  else
    let t := tier2Loop env recs s
    (t.1, t.2.1, .beginTxn :: t.2.2 ++ [.commitTxn])

/-- Tier 1, `bulk_upsert_entries` (`src/kvmflows/flows/update_entires.py`
lines 116-190): an empty batch returns 0 at once with no database contact; a
non-empty batch runs one `INSERT … ON CONFLICT (id) DO UPDATE` for all rows
inside `with db.atomic():`, returning `len(entry_data)` on success; if that
statement raises — any row violating a constraint, or the conflict mechanism
itself failing — the transaction rolls back and the batch falls through to
tier 2. -/
def bulk_upsert_entries (env : DbEnv) (recs : List Record) (s : DbState) :
    Nat × DbState × List DbOp :=
  if recs.isEmpty then (0, s, [])
  else if env.bulkMechFails || recs.any (fun r => !(env.dbOk r)) then
    let t := fallback_individual_upserts env recs s
    (t.1, t.2.1,
      .beginTxn :: .bulkInsertOnConflict (recs.map Record.id) :: .rollbackTxn :: t.2.2)
  else
    (recs.length, recs.foldl dbSet s,
      [.beginTxn, .bulkInsertOnConflict (recs.map Record.id), .commitTxn])

/-- A trace that encloses everything it does in one transaction: it opens a
transaction first, closes it last, and opens or closes no other. -/
def enclosedInSingleTxn (tr : List DbOp) : Prop :=
  ∃ body, tr = DbOp.beginTxn :: body ++ [DbOp.commitTxn] ∧
    DbOp.beginTxn ∉ body ∧ DbOp.commitTxn ∉ body

/-- The aggregation loop of `sync_all_entries` / `update_entries`
(`src/kvmflows/flows/sync_all_entires.py` lines 30-44,
`src/kvmflows/flows/update_entires.py` lines 32-46):
`asyncio.gather(*area_tasks, return_exceptions=True)` delivers one element
per area — the area's `(upserted, max_visible)` pair, or the exception that
escaped its task, as a value.  The loop logs and skips exceptions and
accumulates `(total_upserted, max_numbers, successful_areas)`. -/
def syncAllEntries (areaResults : List (Except String (Nat × Nat))) :
    Nat × Nat × Nat :=
  areaResults.foldl (fun acc r =>
    match r with
    | .error _ => acc
    | .ok (u, m) => (acc.1 + u, max acc.2.1 m, acc.2.2 + 1)) (0, 0, 0)

/-- One admission gate: the `asyncio.Semaphore(self.concurrency)` a single
`bulk_get`/`bulk_get_generator` call creates (`src/kvmflows/clients/http_client.py`
lines 77 and 96), together with the tasks of that call, by phase.  `avail` is
the semaphore's internal counter. -/
structure Gate where
  capacity : Nat
  waiting : Nat
  inflight : Nat
  done : Nat
  avail : Nat
deriving DecidableEq, Repr

/-- A fresh call on the client: a fresh semaphore of size `concurrency` and
`numUrls` tasks, none yet admitted. -/
def mkCall (concurrency numUrls : Nat) : Gate :=
  ⟨concurrency, numUrls, 0, 0, concurrency⟩

/-- The calls currently alive on one `BulkHttpClient` instance.  The source
creates the semaphore inside each call, so overlapping calls appear here as
distinct gates. -/
abbrev InstanceState := List Gate

/-- Interleaving semantics of `get_with_semaphore` (lines 69-73): a waiting
task of call `i` is admitted when that call's semaphore has a free permit
(`async with semaphore` entry), and an in-flight task finishing releases the
permit (block exit). -/
inductive SemStep : InstanceState → InstanceState → Prop where
  | acquire (gs : InstanceState) (i : Nat) (h : i < gs.length)
      (hw : 0 < (gs.get ⟨i, h⟩).waiting) (ha : 0 < (gs.get ⟨i, h⟩).avail) :
      SemStep gs (gs.set i { gs.get ⟨i, h⟩ with
        waiting := (gs.get ⟨i, h⟩).waiting - 1,
        inflight := (gs.get ⟨i, h⟩).inflight + 1,
        avail := (gs.get ⟨i, h⟩).avail - 1 })
  | release (gs : InstanceState) (i : Nat) (h : i < gs.length)
      (hi : 0 < (gs.get ⟨i, h⟩).inflight) :
      SemStep gs (gs.set i { gs.get ⟨i, h⟩ with
        inflight := (gs.get ⟨i, h⟩).inflight - 1,
        done := (gs.get ⟨i, h⟩).done + 1,
        avail := (gs.get ⟨i, h⟩).avail + 1 })

/-- Reachability under the interleaving semantics. -/
inductive SemReach : InstanceState → InstanceState → Prop where
  | refl (gs : InstanceState) : SemReach gs gs
  | tail {a b c : InstanceState} : SemReach a b → SemStep b c → SemReach a c

/-- Requests simultaneously in flight through the instance, across all its
live calls. -/
def totalInflight (gs : InstanceState) : Nat := (gs.map Gate.inflight).sum

/-! ## Theorems -/

lemma linearDelays_succ (D : ℚ) (a m : Nat) :
    linearDelays D a (m + 1) = D * ((a + 1 : Nat) : ℚ) :: linearDelays D (a + 1) m := by
  simp only [linearDelays, List.range_succ_eq_map, List.map_cons, List.map_map,
    List.cons.injEq]
  refine ⟨by norm_num, ?_⟩
  refine List.map_congr_left fun i _ => ?_
  simp only [Function.comp_apply]
  push_cast
  ring

/-- On an always-failing network, the loop started at `attempt = a` with
`fuel = R - a` remaining iterations (with `a < R`) performs exactly `fuel`
attempts, sleeps `D*(a+1), D*(a+2), …, D*(R-1)` and returns the error of the
last attempt `R-1`. -/
lemma retryGo_allFail (err : Nat → String) (R : Nat) (D : ℚ) :
    ∀ fuel a, a + fuel = R → 0 < fuel →
      retryGo (fun k => .error (err k)) R D a fuel =
        ⟨.error (err (R - 1)), fuel, linearDelays D a (fuel - 1)⟩ := by
  intro fuel
  induction fuel with
  | zero => intro a _ h0; exact absurd h0 (by simp)
  | succ n ih =>
    intro a ha _
    by_cases hlast : a + 1 = R
    · have hn : n = 0 := by omega
      subst hn
      simp [retryGo, hlast, linearDelays, show R - 1 = a by omega]
    · have hn : 0 < n := by omega
      have hrec := ih (a + 1) (by omega) hn
      simp only [retryGo, hlast, if_false, hrec]
      obtain ⟨m, rfl⟩ : ∃ m, n = m + 1 := ⟨n - 1, by omega⟩
      simp only [Nat.add_sub_cancel, linearDelays_succ]

lemma linearDelays_sum (D : ℚ) : ∀ (cnt a : Nat),
    (linearDelays D a cnt).sum =
      D * (Finset.range cnt).sum (fun i => ((a + 1 + i : Nat) : ℚ)) := by
  intro cnt
  induction cnt with
  | zero => intro a; simp [linearDelays]
  | succ m ih =>
    intro a
    rw [linearDelays_succ, List.sum_cons, ih (a + 1), Finset.sum_range_succ', mul_add,
      add_comm (D * ((a + 1 : Nat) : ℚ))]
    congr 1
    congr 1
    exact Finset.sum_congr rfl fun i _ => by congr 1; omega

/-- C2: for a URL on which every attempt fails, `get_with_retries` performs
exactly `R = max_retries` attempts and returns the error of the last attempt
as a data value; the sleeps executed are `D*1, D*2, …, D*(R-1)` — the sleep
of `D*k` happens *after* failed attempt `k`, i.e. *before* attempt `k+1`
(not `D*k` before attempt `k` as the claim words it) — and the total delay
is exactly `D*(0+1+…+(R-1))`, hence at least that bound. -/
theorem getWithRetries_allFail (err : Nat → String) (R : Nat) (D : ℚ) (hR : 1 ≤ R) :
    getWithRetries (fun k => .error (err k)) R D =
      ⟨.error (err (R - 1)), R, linearDelays D 0 (R - 1)⟩ ∧
    (getWithRetries (fun k => .error (err k)) R D).delays.sum =
      D * (Finset.range R).sum (fun k => (k : ℚ)) ∧
    D * (Finset.range R).sum (fun k => (k : ℚ)) ≤
      (getWithRetries (fun k => .error (err k)) R D).delays.sum := by
  have hmain : getWithRetries (fun k => .error (err k)) R D =
      ⟨.error (err (R - 1)), R, linearDelays D 0 (R - 1)⟩ :=
    retryGo_allFail err R D R 0 (by omega) (by omega)
  have hsum : (getWithRetries (fun k => .error (err k)) R D).delays.sum =
      D * (Finset.range R).sum (fun k => (k : ℚ)) := by
    rw [hmain]
    simp only [linearDelays_sum]
    congr 1
    rw [show R = (R - 1) + 1 by omega, Finset.sum_range_succ']
    push_cast
    simp
    exact Finset.sum_congr rfl fun i _ => by ring
  exact ⟨hmain, hsum, le_of_eq hsum.symm⟩

/-- C2 witness: the concrete instance `R = 3`, `D = 2`. -/
theorem getWithRetries_allFail_witness :
    1 ≤ 3 ∧
    (getWithRetries (fun k => .error (toString k)) 3 2 =
        ⟨.error (toString 2), 3, linearDelays 2 0 2⟩ ∧
      (getWithRetries (fun k => .error (toString k)) 3 2).delays.sum =
        2 * (Finset.range 3).sum (fun k => (k : ℚ)) ∧
      2 * (Finset.range 3).sum (fun k => (k : ℚ)) ≤
        (getWithRetries (fun k => .error (toString k)) 3 2).delays.sum) :=
  ⟨by norm_num, getWithRetries_allFail (fun k => toString k) 3 2 (by norm_num)⟩

/-- C2 counterexample to the claim as stated: with `R = 2`, `D = 1` and an
always-failing URL, the single sleep — the wait before (1-indexed) attempt 2 —
is `D*1 = 1`, not `D*2 = 2` as "waits before attempt `k` a delay of `D * k`"
predicts. -/
theorem getWithRetries_delay_counterexample :
    (getWithRetries (fun _ => .error "boom") 2 1).delays = [1] ∧
    (getWithRetries (fun _ => .error "boom") 2 1).delays ≠ [2] := by
  have h1 : (getWithRetries (fun _ => .error "boom") 2 1).delays = [1] := by
    show (retryGo (fun _ => .error "boom") 2 1 0 2).delays = [1]
    norm_num [retryGo]
  refine ⟨h1, ?_⟩
  rw [h1]
  norm_num

lemma linspace_getD (a b : ℚ) (num i : Nat) (h : i < num) :
    (linspace a b num).getD i 0 = gridPoint a b num i := by
  unfold linspace
  rw [List.getD_eq_getElem _ _ (by simpa using h)]
  simp

lemma gridPoint_lt_succ (a b : ℚ) (num i : Nat) (hab : a < b) (hnum : 2 ≤ num) :
    gridPoint a b num i < gridPoint a b num (i + 1) := by
  have hpos : (0 : ℚ) < ((num - 1 : Nat) : ℚ) := by
    have h1 : 1 ≤ num - 1 := by omega
    exact_mod_cast Nat.lt_of_lt_of_le Nat.zero_lt_one h1
  have key : gridPoint a b num (i + 1) - gridPoint a b num i =
      (b - a) / ((num - 1 : Nat) : ℚ) := by
    unfold gridPoint
    push_cast
    ring
  have hgap : 0 < (b - a) / ((num - 1 : Nat) : ℚ) := div_pos (by linarith) hpos
  linarith [key ▸ hgap]

/-- C5: for `m, n ≥ 2` and nondegenerate ranges, the grid step emits exactly
`(m-1)*(n-1)` cells; a quadruple is a cell iff it pairs adjacent linear grid
points `(i, i+1)` on the lat axis with `(j, j+1)` on the lng axis; and every
cell satisfies `lat_min < lat_max` and `lng_min < lng_max`. -/
theorem processAreaGrid_spec (latLo latHi lngLo lngHi : ℚ) (m n : Nat)
    (hm : 2 ≤ m) (hn : 2 ≤ n) (hlat : latLo < latHi) (hlng : lngLo < lngHi) :
    (processAreaGrid latLo latHi lngLo lngHi m n).length = (m - 1) * (n - 1) ∧
    (∀ box, box ∈ processAreaGrid latLo latHi lngLo lngHi m n ↔
      ∃ i < m - 1, ∃ j < n - 1,
        box = ⟨gridPoint latLo latHi m i, gridPoint lngLo lngHi n j,
               gridPoint latLo latHi m (i + 1), gridPoint lngLo lngHi n (j + 1)⟩) ∧
    (∀ box ∈ processAreaGrid latLo latHi lngLo lngHi m n,
      box.lat_min < box.lat_max ∧ box.lng_min < box.lng_max) := by
  have hmem : ∀ box, box ∈ processAreaGrid latLo latHi lngLo lngHi m n ↔
      ∃ i < m - 1, ∃ j < n - 1,
        box = ⟨gridPoint latLo latHi m i, gridPoint lngLo lngHi n j,
               gridPoint latLo latHi m (i + 1), gridPoint lngLo lngHi n (j + 1)⟩ := by
    intro box
    simp only [processAreaGrid, List.mem_flatMap, List.mem_map, List.mem_range]
    constructor
    · rintro ⟨i, hi, j, hj, rfl⟩
      exact ⟨i, hi, j, hj, by
        rw [linspace_getD _ _ _ _ (by omega), linspace_getD _ _ _ _ (by omega),
          linspace_getD _ _ _ _ (by omega), linspace_getD _ _ _ _ (by omega)]⟩
    · rintro ⟨i, hi, j, hj, rfl⟩
      exact ⟨i, hi, j, hj, by
        rw [linspace_getD _ _ _ _ (by omega), linspace_getD _ _ _ _ (by omega),
          linspace_getD _ _ _ _ (by omega), linspace_getD _ _ _ _ (by omega)]⟩
  refine ⟨?_, hmem, ?_⟩
  · simp [processAreaGrid, List.flatMap, Function.comp_def, List.length_map,
      List.length_range, List.map_const', mul_comm (m - 1) (n - 1)]
  · intro box hbox
    obtain ⟨i, hi, j, hj, rfl⟩ := (hmem box).1 hbox
    exact ⟨gridPoint_lt_succ _ _ _ _ hlat hm, gridPoint_lt_succ _ _ _ _ hlng hn⟩

/-- C5 witness: the berlin-like area `lat ∈ [524/10, 526/10]`, `lng ∈ [133/10,
135/10]` with `lat_chunks = 3`, `lng_chunks = 2`. -/
theorem processAreaGrid_spec_witness :
    2 ≤ 3 ∧ 2 ≤ 2 ∧ (524/10 : ℚ) < 526/10 ∧ (133/10 : ℚ) < 135/10 ∧
    ((processAreaGrid (524/10) (526/10) (133/10) (135/10) 3 2).length = (3 - 1) * (2 - 1) ∧
    (∀ box, box ∈ processAreaGrid (524/10) (526/10) (133/10) (135/10) 3 2 ↔
      ∃ i < 3 - 1, ∃ j < 2 - 1,
        box = ⟨gridPoint (524/10) (526/10) 3 i, gridPoint (133/10) (135/10) 2 j,
               gridPoint (524/10) (526/10) 3 (i + 1), gridPoint (133/10) (135/10) 2 (j + 1)⟩) ∧
    (∀ box ∈ processAreaGrid (524/10) (526/10) (133/10) (135/10) 3 2,
      box.lat_min < box.lat_max ∧ box.lng_min < box.lng_max)) :=
  ⟨by norm_num, by norm_num, by norm_num, by norm_num,
    processAreaGrid_spec (524/10) (526/10) (133/10) (135/10) 3 2
      (by norm_num) (by norm_num) (by norm_num) (by norm_num)⟩

lemma foldl_set_length {α : Type} (result : Nat → α) :
    ∀ (π : List Nat) (buf : List (Option α)),
      (π.foldl (fun b i => b.set i (some (result i))) buf).length = buf.length := by
  intro π
  induction π with
  | nil => intro buf; rfl
  | cons p rest ih =>
    intro buf
    rw [List.foldl_cons, ih, List.length_set]

lemma foldl_set_getD {α : Type} (result : Nat → α) :
    ∀ (π : List Nat) (buf : List (Option α)) (k : Nat), k < buf.length →
      (π.foldl (fun b i => b.set i (some (result i))) buf).getD k none =
        if k ∈ π then some (result k) else buf.getD k none := by
  intro π
  induction π with
  | nil => intro buf k _; simp
  | cons p rest ih =>
    intro buf k hk
    rw [List.foldl_cons, ih _ k (by rw [List.length_set]; exact hk)]
    by_cases hmem : k ∈ rest
    · simp [hmem]
    · by_cases hkp : k = p
      · subst hkp
        simp [hmem, List.getD_eq_getElem?_getD, List.getElem?_set_self, hk]
      · simp [hmem, hkp, List.getD_eq_getElem?_getD,
          List.getElem?_set_ne (fun h => hkp h.symm)]

lemma gatherRun_eq {α : Type} (result : Nat → α) (n : Nat) (π : List Nat)
    (hπ : π.Perm (List.range n)) :
    gatherRun result n π = (List.range n).map (fun i => some (result i)) := by
  apply List.ext_getElem
  · rw [gatherRun, foldl_set_length, List.length_replicate, List.length_map,
      List.length_range]
  · intro k hk1 hk2
    have hkn : k < n := by
      simpa [gatherRun, foldl_set_length] using hk1
    have hmem : k ∈ π := hπ.mem_iff.2 (List.mem_range.2 hkn)
    have hbuf := foldl_set_getD result π (List.replicate n none) k
      (by rwa [List.length_replicate])
    rw [if_pos hmem] at hbuf
    have hlhs : (gatherRun result n π)[k] = some (result k) := by
      have := List.getD_eq_getElem (gatherRun result n π) none hk1
      rw [← this]
      exact hbuf
    rw [hlhs]
    simp

/-- C6: `bulk_get` returns exactly one slot per URL, in input order, for every
completion order `π` of the individual requests; and for the empty URL list it
returns the empty result having issued no request (the completion sequence is
empty). -/
theorem bulkGet_spec (fetch : String → FetchOutcome Json) (urls : List String)
    (π : List Nat) (hπ : π.Perm (List.range urls.length)) :
    bulkGet fetch urls π = urls.map (fun u => some (fetch u)) ∧
    (bulkGet fetch urls π).length = urls.length ∧
    (urls = [] → π = [] ∧ bulkGet fetch urls π = []) := by
  have hmain : bulkGet fetch urls π = urls.map (fun u => some (fetch u)) := by
    rw [bulkGet, gatherRun_eq _ _ _ hπ]
    apply List.ext_getElem
    · simp
    · intro k hk1 hk2
      simp only [List.getElem_map, List.getElem_range]
      exact congrArg (fun u => some (fetch u))
        (List.getD_eq_getElem urls "" (by simpa using hk2))
  refine ⟨hmain, by rw [hmain]; simp, fun hempty => ?_⟩
  subst hempty
  have hnil : π = [] := by simpa using hπ.eq_nil
  exact ⟨hnil, by rw [hmain]; simp⟩

/-- C6 witness: two URLs completing in reversed order still yield results in
input order; instantiated at `urls = ["a", "b"]`, `π = [1, 0]`. -/
theorem bulkGet_spec_witness :
    ([1, 0] : List Nat).Perm (List.range (["a", "b"] : List String).length) ∧
    (bulkGet (fun u => .value (Json.str u)) ["a", "b"] [1, 0] =
        ["a", "b"].map (fun u => some (FetchOutcome.value (Json.str u))) ∧
      (bulkGet (fun u => .value (Json.str u)) ["a", "b"] [1, 0]).length =
        (["a", "b"] : List String).length ∧
      ((["a", "b"] : List String) = [] →
        ([1, 0] : List Nat) = [] ∧
        bulkGet (fun u => .value (Json.str u)) ["a", "b"] [1, 0] = [])) :=
  ⟨by decide, bulkGet_spec (fun u => .value (Json.str u)) ["a", "b"] [1, 0] (by decide)⟩

/-- C1 (amended): validating outcomes with no error check, the search stage
yields the results of the error-free prefix and then a fetch-error outcome
makes `SearchResult.model_validate` raise, aborting the sequence — no result,
empty or otherwise, is yielded for the failing cell or for any later cell. -/
theorem searchStream_error_aborts (pre post : List (FetchOutcome Json)) (e : String)
    (hpre : ∀ o ∈ pre, (SearchResult.model_validate o).isOk = true) :
    searchStream (pre ++ .error e :: post) =
      (pre.filterMap (fun o => (SearchResult.model_validate o).toOption),
        some ("ValidationError: input is an Exception: " ++ e)) := by
  induction pre with
  | nil => rfl
  | cons o pre ih =>
    have ho := hpre o (by simp)
    obtain ⟨r, hr⟩ : ∃ r, SearchResult.model_validate o = .ok r := by
      cases h : SearchResult.model_validate o with
      | ok r => exact ⟨r, rfl⟩
      | error e' => rw [h] at ho; simp [Except.isOk, Except.toBool] at ho
    simp only [List.cons_append, searchStream, hr, List.append_eq]
    rw [ih (fun o' ho' => hpre o' (by simp [ho']))]
    simp [List.filterMap_cons, hr, Except.toOption]

/-- C1 witness: one cell validating fine, then a failed cell. -/
theorem searchStream_error_aborts_witness :
    (∀ o ∈ [FetchOutcome.value (Json.obj [])],
      (SearchResult.model_validate o).isOk = true) ∧
    searchStream ([FetchOutcome.value (Json.obj [])] ++ .error "boom" :: []) =
      ([FetchOutcome.value (Json.obj [])].filterMap
          (fun o => (SearchResult.model_validate o).toOption),
        some ("ValidationError: input is an Exception: " ++ "boom")) :=
  ⟨by decide, searchStream_error_aborts [FetchOutcome.value (Json.obj [])] [] "boom"
    (by decide)⟩

/-- C1 counterexample to the claim as stated: for the two cells
`[error "boom", {}]` the claim predicts an empty `SearchResult` for the first
cell followed by the second cell's result, with nothing raised; the code
instead yields nothing and raises a `ValidationError` out of the generator. -/
theorem searchStream_counterexample :
    searchStream [.error "boom", .value (.obj [])] ≠
      ([⟨[], []⟩, ⟨[], []⟩], none) ∧
    searchStream [.error "boom", .value (.obj [])] =
      ([], some ("ValidationError: input is an Exception: " ++ "boom")) := by
  have h : searchStream [.error "boom", .value (.obj [])] =
      ([], some ("ValidationError: input is an Exception: " ++ "boom")) := rfl
  refine ⟨?_, h⟩
  rw [h]
  intro hcontra
  simpa using congrArg Prod.fst hcontra

lemma chunksOfGo_length {α : Type} (cs : Nat) :
    ∀ fuel (l : List α), (chunksOfGo cs fuel l).length = fuel := by
  intro fuel
  induction fuel with
  | zero => intro l; rfl
  | succ n ih => intro l; simp [chunksOfGo, ih]

lemma chunksOfGo_flatten {α : Type} (cs : Nat) :
    ∀ fuel (l : List α), l.length ≤ fuel * cs → (chunksOfGo cs fuel l).flatten = l := by
  intro fuel
  induction fuel with
  | zero =>
    intro l h
    simp only [Nat.zero_mul, Nat.le_zero, List.length_eq_zero] at h
    subst h
    rfl
  | succ n ih =>
    intro l h
    have h' : l.length ≤ n * cs + cs := by rwa [Nat.succ_mul] at h
    simp only [chunksOfGo, List.flatten_cons]
    rw [ih (l.drop cs) (by simp only [List.length_drop]; omega)]
    exact List.take_append_drop cs l

lemma le_numChunks_mul (len cs : Nat) (hcs : 0 < cs) :
    len ≤ numChunks len cs * cs := by
  unfold numChunks
  rw [Nat.mul_comm]
  have hdm := Nat.div_add_mod (len + cs - 1) cs
  have hmod := Nat.mod_lt (len + cs - 1) hcs
  omega

lemma chunksOf_flatten {α : Type} (cs : Nat) (l : List α) (hcs : 0 < cs) :
    (chunksOf cs l).flatten = l :=
  chunksOfGo_flatten cs _ l (le_numChunks_mul l.length cs hcs)

lemma chunksOfGo_mem_length {α : Type} (cs : Nat) :
    ∀ fuel (l : List α) c, c ∈ chunksOfGo cs fuel l → c.length ≤ cs := by
  intro fuel
  induction fuel with
  | zero => intro l c h; simp [chunksOfGo] at h
  | succ n ih =>
    intro l c h
    simp only [chunksOfGo, List.mem_cons] at h
    rcases h with rfl | h
    · rw [List.length_take]
      exact Nat.min_le_left cs l.length
    · exact ih _ c h

lemma map_getD_of_lt {α β : Type} (f : α → β) (l : List α) (k : Nat) (d : α)
    (dmap : β) (h : k < l.length) : (l.map f).getD k dmap = f (l.getD k d) := by
  rw [List.getD_eq_getElem _ _ (by simpa using h), List.getD_eq_getElem _ _ h,
    List.getElem_map]

lemma getEntriesYields_allOk {α : Type} (decode : Json → Except String α) :
    ∀ outs, (∀ o ∈ outs, (processChunkOutcome decode o).isOk = true) →
      getEntriesYields decode outs =
        (outs.map (fun o => (processChunkOutcome decode o).toOption.getD []), none) := by
  intro outs
  induction outs with
  | nil => intro _; rfl
  | cons o rest ih =>
    intro h
    have ho := h o (by simp)
    obtain ⟨b, hb⟩ : ∃ b, processChunkOutcome decode o = .ok b := by
      cases hx : processChunkOutcome decode o with
      | ok b => exact ⟨b, rfl⟩
      | error e => rw [hx] at ho; simp [Except.isOk, Except.toBool] at ho
    simp only [getEntriesYields, hb]
    rw [ih (fun o' ho' => h o' (by simp [ho']))]
    simp [hb, Except.toOption]

/-- C7: `get_entries` partitions the ids into consecutive chunks of at most
`chunk_size` whose concatenation is the input, issues exactly one fetch per
chunk with the chunk's ids comma-joined into the request path, and (when every
completed chunk processes without a decode failure) yields exactly one batch
per chunk in completion order, where a chunk whose fetch outcome is an error
contributes an empty batch instead of aborting. -/
theorem getEntries_spec {α : Type} (decode : Json → Except String α)
    (fetch : String → FetchOutcome Json) (base : String) (entryIds : List String)
    (chunkSize : Nat) (π : List Nat) (hcs : 0 < chunkSize)
    (hπ : π.Perm (List.range (getEntriesUrls base entryIds chunkSize).length))
    (hdec : ∀ i ∈ π, (processChunkOutcome decode
        (fetch ((getEntriesUrls base entryIds chunkSize).getD i ""))).isOk = true) :
    (chunksOf chunkSize entryIds).flatten = entryIds ∧
    (∀ c ∈ chunksOf chunkSize entryIds, c.length ≤ chunkSize) ∧
    (getEntriesUrls base entryIds chunkSize).length =
      (chunksOf chunkSize entryIds).length ∧
    (∀ k, k < (chunksOf chunkSize entryIds).length →
      (getEntriesUrls base entryIds chunkSize).getD k "" =
        base ++ "/entries/" ++
          String.intercalate "," ((chunksOf chunkSize entryIds).getD k [])) ∧
    (getEntries decode fetch base entryIds chunkSize π).2 = none ∧
    (getEntries decode fetch base entryIds chunkSize π).1 =
      π.map (fun i => (processChunkOutcome decode
        (fetch ((getEntriesUrls base entryIds chunkSize).getD i ""))).toOption.getD []) ∧
    (getEntries decode fetch base entryIds chunkSize π).1.length =
      (chunksOf chunkSize entryIds).length ∧
    (∀ e, processChunkOutcome decode (FetchOutcome.error e) = .ok ([] : List α)) := by
  have hyields := getEntriesYields_allOk decode
    (π.map (fun i => fetch ((getEntriesUrls base entryIds chunkSize).getD i "")))
    (by
      intro o ho
      obtain ⟨i, hi, rfl⟩ := List.mem_map.1 ho
      exact hdec i hi)
  have hrun : getEntries decode fetch base entryIds chunkSize π =
      (π.map (fun i => (processChunkOutcome decode
        (fetch ((getEntriesUrls base entryIds chunkSize).getD i ""))).toOption.getD []),
        none) := by
    rw [getEntries, hyields, List.map_map]
    rfl
  refine ⟨chunksOf_flatten chunkSize entryIds hcs,
    fun c hc => chunksOfGo_mem_length chunkSize _ entryIds c hc,
    by rw [getEntriesUrls, List.length_map],
    fun k hk => ?_, by rw [hrun], by rw [hrun], ?_, fun e => rfl⟩
  · rw [getEntriesUrls]
    have := map_getD_of_lt (entryUrl base) (chunksOf chunkSize entryIds) k [] "" hk
    simpa [entryUrl] using this
  · rw [hrun]
    simp only [List.length_map]
    rw [hπ.length_eq, List.length_range, getEntriesUrls, List.length_map]

/-- C7 witness: one id, chunk size 1, the only chunk's fetch failing — the
stage yields a single empty batch. -/
theorem getEntries_spec_witness :
    0 < 1 ∧
    ([0] : List Nat).Perm (List.range (getEntriesUrls "http://o" ["x"] 1).length) ∧
    (∀ i ∈ ([0] : List Nat), (processChunkOutcome (fun _ => Except.ok ())
        ((fun _ => FetchOutcome.error "down")
          ((getEntriesUrls "http://o" ["x"] 1).getD i ""))).isOk = true) ∧
    ((chunksOf 1 ["x"]).flatten = ["x"] ∧
      (∀ c ∈ chunksOf 1 ["x"], c.length ≤ 1) ∧
      (getEntriesUrls "http://o" ["x"] 1).length = (chunksOf 1 ["x"]).length ∧
      (∀ k, k < (chunksOf 1 ["x"]).length →
        (getEntriesUrls "http://o" ["x"] 1).getD k "" =
          "http://o" ++ "/entries/" ++
            String.intercalate "," ((chunksOf 1 ["x"]).getD k [])) ∧
      (getEntries (fun _ => Except.ok ()) (fun _ => FetchOutcome.error "down")
        "http://o" ["x"] 1 [0]).2 = none ∧
      (getEntries (fun _ => Except.ok ()) (fun _ => FetchOutcome.error "down")
        "http://o" ["x"] 1 [0]).1 =
        ([0] : List Nat).map (fun i => (processChunkOutcome (fun _ => Except.ok ())
          ((fun _ => FetchOutcome.error "down")
            ((getEntriesUrls "http://o" ["x"] 1).getD i ""))).toOption.getD []) ∧
      (getEntries (fun _ => Except.ok ()) (fun _ => FetchOutcome.error "down")
        "http://o" ["x"] 1 [0]).1.length = (chunksOf 1 ["x"]).length ∧
      (∀ e, processChunkOutcome (fun _ => Except.ok ()) (FetchOutcome.error e) =
        .ok ([] : List Unit))) :=
  ⟨by norm_num, by decide, by decide,
    getEntries_spec (fun _ => Except.ok ()) (fun _ => FetchOutcome.error "down")
      "http://o" ["x"] 1 [0] (by norm_num) (by decide) (by decide)⟩

/-- C10: upserting the empty record list returns 0 with the store untouched
and an empty trace — no conversion, connection use, transaction or fallback
tier is reached. -/
theorem bulk_upsert_empty (env : DbEnv) (s : DbState) :
    bulk_upsert_entries env [] s = (0, s, []) := rfl

lemma dbHas_dbSet_self (s : DbState) (r : Record) :
    dbHas (dbSet s r) r.id = true := by
  unfold dbSet
  by_cases hpres : dbHas s r.id = true
  · simp only [hpres, if_true]
    simp only [dbHas, List.any_eq_true, beq_iff_eq] at hpres ⊢
    obtain ⟨q, hq, hqid⟩ := hpres
    exact ⟨r, List.mem_map.2 ⟨q, hq, by simp [hqid]⟩, rfl⟩
  · simp only [hpres, if_false]
    simp only [dbHas, List.any_eq_true, beq_iff_eq]
    exact ⟨r, List.mem_append_right _ (by simp), rfl⟩

lemma dbHas_dbSet_mono (s : DbState) (r : Record) (id : String)
    (h : dbHas s id = true) : dbHas (dbSet s r) id = true := by
  unfold dbSet
  obtain ⟨q, hq, hqid⟩ :=
    (by simpa only [dbHas, List.any_eq_true, beq_iff_eq] using h :
      ∃ x ∈ s, x.id = id)
  by_cases hpres : dbHas s r.id = true
  · rw [if_pos hpres]
    simp only [dbHas, List.any_eq_true, beq_iff_eq]
    by_cases hqr : q.id = r.id
    · exact ⟨r, List.mem_map.2 ⟨q, hq, by simp [hqr]⟩, by rw [← hqr, hqid]⟩
    · exact ⟨q, List.mem_map.2 ⟨q, hq, by simp [hqr]⟩, hqid⟩
  · rw [if_neg hpres]
    simp only [dbHas, List.any_eq_true, beq_iff_eq]
    exact ⟨q, List.mem_append_left _ hq, hqid⟩

lemma tier2Loop_spec (env : DbEnv) : ∀ (recs : List Record) (s : DbState),
    (tier2Loop env recs s).1 = (recs.filter env.dbOk).length ∧
    (∀ id, dbHas s id = true → dbHas (tier2Loop env recs s).2.1 id = true) ∧
    (∀ q ∈ recs, env.dbOk q = true → dbHas (tier2Loop env recs s).2.1 q.id = true) := by
  intro recs
  induction recs with
  | nil => intro s; exact ⟨rfl, fun id h => h, by simp⟩
  | cons r rest ih =>
    intro s
    by_cases h2 : env.dbOk r = true
    · have hfil : (r :: rest).filter env.dbOk = r :: rest.filter env.dbOk := by
        simp [List.filter_cons, h2]
      have hred : (tier2Loop env (r :: rest) s).1 =
            (tier2Loop env rest (dbSet s r)).1 + 1 ∧
          (tier2Loop env (r :: rest) s).2.1 = (tier2Loop env rest (dbSet s r)).2.1 := by
        by_cases h1 : dbHas s r.id = true <;> simp [tier2Loop, h1, h2]
      obtain ⟨ihc, ihm, ihg⟩ := ih (dbSet s r)
      refine ⟨by rw [hred.1, hfil, List.length_cons, ihc], ?_, ?_⟩
      · intro id h
        rw [hred.2]
        exact ihm id (dbHas_dbSet_mono s r id h)
      · intro q hq hok
        rw [hred.2]
        rcases List.mem_cons.1 hq with rfl | hq'
        · exact ihm q.id (dbHas_dbSet_self s q)
        · exact ihg q hq' hok
    · have h2' : env.dbOk r = false := by simpa using h2
      have hfil : (r :: rest).filter env.dbOk = rest.filter env.dbOk := by
        simp [List.filter_cons, h2']
      have hred : (tier2Loop env (r :: rest) s).1 = (tier2Loop env rest s).1 ∧
          (tier2Loop env (r :: rest) s).2.1 = (tier2Loop env rest s).2.1 := by
        by_cases h1 : dbHas s r.id = true <;> simp [tier2Loop, h1, h2']
      obtain ⟨ihc, ihm, ihg⟩ := ih s
      refine ⟨by rw [hred.1, hfil, ihc], ?_, ?_⟩
      · intro id h
        rw [hred.2]
        exact ihm id h
      · intro q hq hok
        rw [hred.2]
        rcases List.mem_cons.1 hq with rfl | hq'
        · exact absurd hok (by simp [h2'])
        · exact ihg q hq' hok

lemma tier2Loop_noTxn (env : DbEnv) : ∀ (recs : List Record) (s : DbState),
    ∀ op ∈ (tier2Loop env recs s).2.2, op ≠ .beginTxn ∧ op ≠ .commitTxn := by
  intro recs
  induction recs with
  | nil => intro s op h; simp [tier2Loop] at h
  | cons r rest ih =>
    intro s op h
    have hcases : op = DbOp.update r.id ∨ op = DbOp.insert r.id ∨
        (∃ s', op ∈ (tier2Loop env rest s').2.2) := by
      by_cases h1 : dbHas s r.id = true <;> by_cases h2 : env.dbOk r = true
      · simp only [tier2Loop, h1, h2, if_true] at h
        rcases List.mem_cons.1 h with rfl | h'
        · exact Or.inl rfl
        · exact Or.inr (Or.inr ⟨dbSet s r, h'⟩)
      · have h2' : env.dbOk r = false := by simpa using h2
        simp [tier2Loop, h1, h2'] at h
        rcases h with rfl | h'
        · exact Or.inl rfl
        · exact Or.inr (Or.inr ⟨s, h'⟩)
      · simp [tier2Loop, h1, h2] at h
        rcases h with rfl | rfl | h'
        · exact Or.inl rfl
        · exact Or.inr (Or.inl rfl)
        · exact Or.inr (Or.inr ⟨dbSet s r, h'⟩)
      · have h2' : env.dbOk r = false := by simpa using h2
        simp [tier2Loop, h1, h2'] at h
        rcases h with rfl | rfl | h'
        · exact Or.inl rfl
        · exact Or.inr (Or.inl rfl)
        · exact Or.inr (Or.inr ⟨s, h'⟩)
    rcases hcases with rfl | rfl | ⟨s', h'⟩
    · exact ⟨by simp, by simp⟩
    · exact ⟨by simp, by simp⟩
    · exact ih s' op h'

lemma safeAsync_spec (env : DbEnv) : ∀ (recs : List Record) (s : DbState),
    (∀ op ∈ (safe_async_fallback_upserts env recs s).2.2,
      op ≠ .beginTxn ∧ op ≠ .commitTxn ∧ op ≠ .rollbackTxn) ∧
    (∀ id, dbHas s id = true →
      dbHas (safe_async_fallback_upserts env recs s).2.1 id = true) ∧
    (∀ q ∈ recs, env.dbOk q = true →
      dbHas (safe_async_fallback_upserts env recs s).2.1 q.id = true) := by
  intro recs
  induction recs with
  | nil =>
    intro s
    exact ⟨by simp [safe_async_fallback_upserts], fun id h => h, by simp⟩
  | cons r rest ih =>
    intro s
    by_cases hok : env.dbOk r = true
    · simp only [safe_async_fallback_upserts, hok, if_true]
      obtain ⟨ihn, ihm, ihg⟩ := ih (dbSet s r)
      refine ⟨?_, fun id h => ihm id (dbHas_dbSet_mono s r id h), ?_⟩
      · intro op h
        rcases List.mem_cons.1 h with rfl | h'
        · exact ⟨by simp, by simp, by simp⟩
        rcases List.mem_cons.1 h' with rfl | h''
        · exact ⟨by simp, by simp, by simp⟩
        · exact ihn op h''
      · intro q hq hqok
        rcases List.mem_cons.1 hq with rfl | hq'
        · exact ihm q.id (dbHas_dbSet_self s q)
        · exact ihg q hq' hqok
    · have hok' : env.dbOk r = false := by
        cases hbo : env.dbOk r with
        | true => exact absurd hbo hok
        | false => rfl
      simp only [safe_async_fallback_upserts, hok', Bool.false_eq_true, if_false]
      obtain ⟨ihn, ihm, ihg⟩ := ih s
      refine ⟨?_, ihm, ?_⟩
      · intro op h
        rcases List.mem_cons.1 h with rfl | h'
        · exact ⟨by simp, by simp, by simp⟩
        rcases List.mem_cons.1 h' with rfl | h''
        · exact ⟨by simp, by simp, by simp⟩
        rcases List.mem_cons.1 h'' with rfl | h'''
        · exact ⟨by simp, by simp, by simp⟩
        · exact ihn op h'''
      · intro q hq hqok
        rcases List.mem_cons.1 hq with rfl | hq'
        · exact absurd hqok (by simp [hok'])
        · exact ihg q hq' hqok

/-- C3: (1) on a batch whose bulk statement succeeds, tier 1 returns exactly
`len(records)` after the single atomic multi-row upsert, never reaching the
per-record tier; (2) when the bulk statement raises (here: a record violating
a constraint), tier 2 runs the per-record update-then-insert loop, catches the
failing record's error, continues, returns the count of records that
succeeded — `N-1` when exactly one of `N` records is bad — and persists the
other `N-1`. -/
theorem reconcile_tiers_spec (env : DbEnv) (s : DbState) :
    (∀ recs : List Record, recs ≠ [] → env.bulkMechFails = false →
      (∀ r ∈ recs, env.dbOk r = true) →
      bulk_upsert_entries env recs s =
        (recs.length, recs.foldl dbSet s,
          [.beginTxn, .bulkInsertOnConflict (recs.map Record.id), .commitTxn])) ∧
    (∀ pre r post, env.connFails = false → env.dbOk r = false →
      (∀ q ∈ pre ++ post, env.dbOk q = true) →
      (fallback_individual_upserts env (pre ++ r :: post) s).1 =
        pre.length + post.length ∧
      (∀ q ∈ pre ++ post,
        dbHas (fallback_individual_upserts env (pre ++ r :: post) s).2.1 q.id = true) ∧
      (bulk_upsert_entries env (pre ++ r :: post) s).1 =
        (fallback_individual_upserts env (pre ++ r :: post) s).1) := by
  constructor
  · intro recs hne hmech hok
    have hempty : recs.isEmpty = false := by
      cases recs with
      | nil => exact absurd rfl hne
      | cons a l => rfl
    have hany : recs.any (fun r => !(env.dbOk r)) = false := by
      rw [List.any_eq_false]
      intro r hr
      simp [hok r hr]
    rw [bulk_upsert_entries]
    simp [hempty, hmech, hany]
  · intro pre r post hconn hbad hok
    have hfall : fallback_individual_upserts env (pre ++ r :: post) s =
        ((tier2Loop env (pre ++ r :: post) s).1,
          (tier2Loop env (pre ++ r :: post) s).2.1,
          .beginTxn :: (tier2Loop env (pre ++ r :: post) s).2.2 ++ [.commitTxn]) := by
      rw [fallback_individual_upserts]
      simp [hconn]
    obtain ⟨hcount, _, hgood⟩ := tier2Loop_spec env (pre ++ r :: post) s
    have hfilter : ((pre ++ r :: post).filter env.dbOk).length =
        pre.length + post.length := by
      rw [List.filter_append, List.filter_cons_of_neg (by simp [hbad]),
        List.length_append,
        List.filter_eq_self.2 (fun q hq => hok q (List.mem_append_left _ hq)),
        List.filter_eq_self.2 (fun q hq => hok q (List.mem_append_right _ hq))]
    refine ⟨by rw [hfall]; exact hcount.trans hfilter, ?_, ?_⟩
    · intro q hq
      rw [hfall]
      simp only
      rcases List.mem_append.1 hq with hq' | hq'
      · exact hgood q (List.mem_append_left _ hq') (hok q hq)
      · exact hgood q (List.mem_append_right _ (List.mem_cons_of_mem r hq'))
          (hok q hq)
    · have hempty : (pre ++ r :: post).isEmpty = false := by
        cases pre with
        | nil => rfl
        | cons a l => rfl
      have hany : (pre ++ r :: post).any (fun q => !(env.dbOk q)) = true := by
        rw [List.any_eq_true]
        exact ⟨r, List.mem_append_right _ (List.mem_cons_self r post), by simp [hbad]⟩
      rw [bulk_upsert_entries]
      simp [hempty, hany]

/-- C3 witness: a two-good-one-bad batch through the per-record tier persists
the two good records and reports 2; a clean singleton batch through the bulk
tier reports 1. -/
theorem reconcile_tiers_spec_witness :
    (([⟨"a", "1"⟩] : List Record) ≠ [] ∧
      (⟨fun rec => rec.id != "bad", false, false⟩ : DbEnv).bulkMechFails = false ∧
      (∀ r ∈ ([⟨"a", "1"⟩] : List Record),
        (⟨fun rec => rec.id != "bad", false, false⟩ : DbEnv).dbOk r = true) ∧
      bulk_upsert_entries ⟨fun rec => rec.id != "bad", false, false⟩ [⟨"a", "1"⟩] [] =
        (([⟨"a", "1"⟩] : List Record).length,
          ([⟨"a", "1"⟩] : List Record).foldl dbSet [],
          [.beginTxn,
            .bulkInsertOnConflict (([⟨"a", "1"⟩] : List Record).map Record.id),
            .commitTxn])) ∧
    ((fallback_individual_upserts ⟨fun rec => rec.id != "bad", false, false⟩
        ([⟨"a", "1"⟩] ++ ⟨"bad", "2"⟩ :: [⟨"c", "3"⟩]) []).1 =
        ([⟨"a", "1"⟩] : List Record).length + ([⟨"c", "3"⟩] : List Record).length ∧
      (∀ q ∈ ([⟨"a", "1"⟩] ++ [⟨"c", "3"⟩] : List Record),
        dbHas (fallback_individual_upserts ⟨fun rec => rec.id != "bad", false, false⟩
          ([⟨"a", "1"⟩] ++ ⟨"bad", "2"⟩ :: [⟨"c", "3"⟩]) []).2.1 q.id = true) ∧
      (bulk_upsert_entries ⟨fun rec => rec.id != "bad", false, false⟩
        ([⟨"a", "1"⟩] ++ ⟨"bad", "2"⟩ :: [⟨"c", "3"⟩]) []).1 =
        (fallback_individual_upserts ⟨fun rec => rec.id != "bad", false, false⟩
          ([⟨"a", "1"⟩] ++ ⟨"bad", "2"⟩ :: [⟨"c", "3"⟩]) []).1) :=
  ⟨⟨by decide, rfl, by decide,
    (reconcile_tiers_spec ⟨fun rec => rec.id != "bad", false, false⟩ []).1
      [⟨"a", "1"⟩] (by decide) rfl (by decide)⟩,
    (reconcile_tiers_spec ⟨fun rec => rec.id != "bad", false, false⟩ []).2
      [⟨"a", "1"⟩] ⟨"bad", "2"⟩ [⟨"c", "3"⟩] rfl rfl (by decide)⟩

/-- C4 (amended): tier 3 opens no transaction at all, so every record it
writes stays written independently of later failures; tier 2, however,
contrary to the claim, wraps the whole per-record batch loop in one
`with db.atomic():` transaction — a single begin/commit pair enclosing every
record statement (record-level failures are caught inside the block, so the
block commits). -/
theorem fallback_txn_structure (env : DbEnv) (recs : List Record) (s : DbState)
    (hconn : env.connFails = false) :
    (fallback_individual_upserts env recs s).2.2 =
      .beginTxn :: (tier2Loop env recs s).2.2 ++ [.commitTxn] ∧
    (∀ op ∈ (tier2Loop env recs s).2.2, op ≠ .beginTxn ∧ op ≠ .commitTxn) ∧
    (∀ op ∈ (safe_async_fallback_upserts env recs s).2.2,
      op ≠ .beginTxn ∧ op ≠ .commitTxn ∧ op ≠ .rollbackTxn) ∧
    (∀ q ∈ recs, env.dbOk q = true →
      dbHas (safe_async_fallback_upserts env recs s).2.1 q.id = true) := by
  refine ⟨?_, tier2Loop_noTxn env recs s, (safeAsync_spec env recs s).1,
    (safeAsync_spec env recs s).2.2⟩
  rw [fallback_individual_upserts]
  simp [hconn]

/-- C4 witness: the structure theorem at a concrete two-record batch. -/
theorem fallback_txn_structure_witness :
    (⟨fun _ => true, false, false⟩ : DbEnv).connFails = false ∧
    ((fallback_individual_upserts ⟨fun _ => true, false, false⟩
        [⟨"a", "1"⟩, ⟨"b", "2"⟩] []).2.2 =
      .beginTxn :: (tier2Loop ⟨fun _ => true, false, false⟩
        [⟨"a", "1"⟩, ⟨"b", "2"⟩] []).2.2 ++ [.commitTxn] ∧
    (∀ op ∈ (tier2Loop ⟨fun _ => true, false, false⟩
        [⟨"a", "1"⟩, ⟨"b", "2"⟩] []).2.2, op ≠ .beginTxn ∧ op ≠ .commitTxn) ∧
    (∀ op ∈ (safe_async_fallback_upserts ⟨fun _ => true, false, false⟩
        [⟨"a", "1"⟩, ⟨"b", "2"⟩] []).2.2,
      op ≠ .beginTxn ∧ op ≠ .commitTxn ∧ op ≠ .rollbackTxn) ∧
    (∀ q ∈ ([⟨"a", "1"⟩, ⟨"b", "2"⟩] : List Record),
      (⟨fun _ => true, false, false⟩ : DbEnv).dbOk q = true →
      dbHas (safe_async_fallback_upserts ⟨fun _ => true, false, false⟩
        [⟨"a", "1"⟩, ⟨"b", "2"⟩] []).2.1 q.id = true)) :=
  ⟨rfl, fallback_txn_structure ⟨fun _ => true, false, false⟩
    [⟨"a", "1"⟩, ⟨"b", "2"⟩] [] rfl⟩

/-- C4 counterexample to the claim as stated: on a concrete two-record batch
with no failures, tier 2's trace is one `beginTxn`, the four record
statements, then one `commitTxn` — the whole batch enclosed in a single
database transaction, which the claim says never happens. -/
theorem fallback_atomic_counterexample :
    enclosedInSingleTxn
      ((fallback_individual_upserts ⟨fun _ => true, false, false⟩
        [⟨"a", "1"⟩, ⟨"b", "2"⟩] []).2.2) := by
  refine ⟨[.update "a", .insert "a", .update "b", .insert "b"], ?_, by decide, by decide⟩
  rfl

lemma syncAll_foldl_general :
    ∀ (results : List (Except String (Nat × Nat))) (t0 m0 c0 : Nat),
      results.foldl (fun acc r =>
        match r with
        | .error _ => acc
        | .ok (u, m) => (acc.1 + u, max acc.2.1 m, acc.2.2 + 1)) (t0, m0, c0) =
      (t0 + ((results.filterMap Except.toOption).map Prod.fst).sum,
        max m0 (((results.filterMap Except.toOption).map Prod.snd).foldr max 0),
        c0 + (results.filterMap Except.toOption).length) := by
  intro results
  induction results with
  | nil => intro t0 m0 c0; simp
  | cons r rest ih =>
    intro t0 m0 c0
    cases r with
    | error e =>
      simp only [List.foldl_cons]
      rw [ih]
      simp [Except.toOption, List.filterMap_cons]
    | ok p =>
      obtain ⟨u, m⟩ := p
      simp only [List.foldl_cons]
      rw [ih]
      simp only [Except.toOption, List.filterMap_cons, List.map_cons, List.sum_cons,
        List.foldr_cons, List.length_cons, Prod.mk.injEq]
      exact ⟨by omega, by rw [Nat.max_assoc], by omega⟩

/-- C8: the orchestrator's aggregation is total over the per-area results that
`asyncio.gather(..., return_exceptions=True)` delivers (so the run itself
never raises); an area whose task raised contributes nothing, and the
aggregate is the sum of the successful areas' upsert counts, the maximum
single-cell visible count among them, and their number — in particular one
failed area next to one area with 3 records totals 3. -/
theorem syncAll_spec (results : List (Except String (Nat × Nat))) :
    (syncAllEntries results).1 =
      ((results.filterMap Except.toOption).map Prod.fst).sum ∧
    (syncAllEntries results).2.1 =
      ((results.filterMap Except.toOption).map Prod.snd).foldr max 0 ∧
    (syncAllEntries results).2.2 = (results.filterMap Except.toOption).length ∧
    (∀ e m, syncAllEntries [Except.error e, Except.ok (3, m)] = (3, m, 1)) := by
  have h := syncAll_foldl_general results 0 0 0
  rw [syncAllEntries, h]
  refine ⟨by simp, by simp, by simp, ?_⟩
  intro e m
  have h2 := syncAll_foldl_general [Except.error e, Except.ok (3, m)] 0 0 0
  rw [syncAllEntries, h2]
  simp [Except.toOption, List.filterMap_cons]

lemma semStep_inv (C : Nat) {a b : InstanceState} (h : SemStep a b)
    (hinv : ∀ g ∈ a, g.inflight + g.avail = g.capacity ∧ g.capacity = C) :
    ∀ g ∈ b, g.inflight + g.avail = g.capacity ∧ g.capacity = C := by
  cases h with
  | acquire i hlen hw ha =>
    intro g hg
    rcases List.mem_or_eq_of_mem_set hg with hmem | rfl
    · exact hinv g hmem
    · obtain ⟨hold, hcap⟩ := hinv _ (List.get_mem a i hlen)
      constructor
      · show (List.get a ⟨i, hlen⟩).inflight + 1 +
            ((List.get a ⟨i, hlen⟩).avail - 1) = (List.get a ⟨i, hlen⟩).capacity
        omega
      · exact hcap
  | release i hlen hi =>
    intro g hg
    rcases List.mem_or_eq_of_mem_set hg with hmem | rfl
    · exact hinv g hmem
    · obtain ⟨hold, hcap⟩ := hinv _ (List.get_mem a i hlen)
      constructor
      · show (List.get a ⟨i, hlen⟩).inflight - 1 +
            ((List.get a ⟨i, hlen⟩).avail + 1) = (List.get a ⟨i, hlen⟩).capacity
        omega
      · exact hcap

lemma semStep_length {a b : InstanceState} (h : SemStep a b) :
    b.length = a.length := by
  cases h with
  | acquire i hlen hw ha => exact List.length_set a i _
  | release i hlen hi => exact List.length_set a i _

lemma semReach_inv (C : Nat) {a b : InstanceState} (h : SemReach a b)
    (hinv : ∀ g ∈ a, g.inflight + g.avail = g.capacity ∧ g.capacity = C) :
    (∀ g ∈ b, g.inflight + g.avail = g.capacity ∧ g.capacity = C) ∧
    b.length = a.length := by
  induction h with
  | refl => exact ⟨hinv, rfl⟩
  | tail hr hs ih => exact ⟨semStep_inv C hs ih.1, (semStep_length hs).trans ih.2⟩

/-- C9 (amended): each `bulk_get` / `bulk_get_generator` call creates its own
admission gate of size `C`, and within one call at most `C` requests are ever
simultaneously in flight, in every reachable interleaving.  (The gate is
per-call, not per-instance — see the counterexample for overlapping calls.) -/
theorem bulkGet_perCall_bound (C n : Nat) (s : InstanceState)
    (hreach : SemReach [mkCall C n] s) :
    totalInflight s ≤ C ∧ ∀ g ∈ s, g.inflight ≤ C := by
  have hinv0 : ∀ g ∈ [mkCall C n],
      g.inflight + g.avail = g.capacity ∧ g.capacity = C := by
    intro g hg
    rcases List.mem_singleton.1 hg with rfl
    exact ⟨Nat.zero_add C, rfl⟩
  obtain ⟨hinv, hlen⟩ := semReach_inv C hreach hinv0
  have hbound : ∀ g ∈ s, g.inflight ≤ C := by
    intro g hg
    obtain ⟨h1, h2⟩ := hinv g hg
    omega
  refine ⟨?_, hbound⟩
  obtain ⟨g, rfl⟩ : ∃ g, s = [g] := by
    cases s with
    | nil => simp at hlen
    | cons g t =>
      cases t with
      | nil => exact ⟨g, rfl⟩
      | cons g' t' => simp at hlen
  simpa [totalInflight] using hbound g (by simp)

/-- C9 witness for the per-call bound: the state of a call with `C = 2` and
three URLs after one task has been admitted. -/
theorem bulkGet_perCall_bound_witness :
    SemReach [mkCall 2 3] [⟨2, 2, 1, 0, 1⟩] ∧
    (totalInflight [⟨2, 2, 1, 0, 1⟩] ≤ 2 ∧
      ∀ g ∈ [(⟨2, 2, 1, 0, 1⟩ : Gate)], g.inflight ≤ 2) := by
  have hreach : SemReach [mkCall 2 3] [⟨2, 2, 1, 0, 1⟩] :=
    SemReach.tail (SemReach.refl _)
      (SemStep.acquire [mkCall 2 3] 0 (by norm_num) (by decide) (by decide))
  exact ⟨hreach, bulkGet_perCall_bound 2 3 _ hreach⟩

/-- C9 counterexample to the claim as stated: two overlapping calls on the
same instance with `concurrency = 1` each create their own
`asyncio.Semaphore(1)` (`bulk_get` line 77 / `bulk_get_generator` line 96), so
the interleaving that admits one task of each call reaches two simultaneous
in-flight requests through the instance — more than `C = 1`, which the claim
says is never possible. -/
theorem instance_gate_counterexample :
    SemReach [mkCall 1 1, mkCall 1 1] [⟨1, 0, 1, 0, 0⟩, ⟨1, 0, 1, 0, 0⟩] ∧
    totalInflight [⟨1, 0, 1, 0, 0⟩, ⟨1, 0, 1, 0, 0⟩] = 2 ∧
    ¬ totalInflight [⟨1, 0, 1, 0, 0⟩, ⟨1, 0, 1, 0, 0⟩] ≤ 1 := by
  have h1 : SemStep [mkCall 1 1, mkCall 1 1] [⟨1, 0, 1, 0, 0⟩, mkCall 1 1] :=
    SemStep.acquire [mkCall 1 1, mkCall 1 1] 0 (by norm_num) (by decide) (by decide)
  have h2 : SemStep [⟨1, 0, 1, 0, 0⟩, mkCall 1 1]
      [⟨1, 0, 1, 0, 0⟩, ⟨1, 0, 1, 0, 0⟩] :=
    SemStep.acquire [⟨1, 0, 1, 0, 0⟩, mkCall 1 1] 1 (by norm_num) (by decide) (by decide)
  exact ⟨SemReach.tail (SemReach.tail (SemReach.refl _) h1) h2, rfl, by decide⟩

end Kvmflows
